import Mathlib

/-!
Verification of the route-string-to-file resolution engine of
`next-typesafe-url`'s TypeScript plugin.

The development shallowly embeds the two resolver entry points
(`resolveRouteToFile` and `findRouteTypeWithGroups` with its recursive
worker `searchDir`) from `packages/typescript-plugin/src/resolver.ts`,
and the route-string detector (`detectRouteString`) from
`packages/typescript-plugin/src/detector.ts`.

Modelling conventions:
* File-system paths are lists of path components (`FsPath`).  `path.join`
  on plain components is component concatenation; joining a configured
  directory string such as `"src/app"` appends its `/`-separated
  components (`pathComponents`).  No `.`/`..` normalisation is modelled:
  the resolver only ever joins URL segments and configured names.
* For `resolveRouteToFile` the host file system is an opaque oracle
  `fileExists : FsPath → Bool`, exactly the only query that function
  performs (`typescript.sys.fileExists`).
* For the grouping search the file system is a finite directory tree
  (`FSNode`), matching the platform contract of a finite, cycle-free
  tree.  A node also records whether listing its entries succeeds
  (`typescript.sys.readDirectory` may throw; the code catches this).
* JavaScript string operations (`split`, `replace(/%5F/g,"_")`,
  `startsWith`) are modelled character-list by character-list.
-/

/-- A file-system path, as its list of components. -/
abbrev FsPath := List String

/-- JS `str.split(sep)` on character lists: splits at every occurrence of
`sep`, keeping empty pieces (so the result is always non-empty). -/
def splitChars (sep : Char) : List Char → List (List Char)
  | [] => [[]]
  | c :: rest =>
    match splitChars sep rest with
    | [] => [[]]
    | g :: gs => if c = sep then [] :: g :: gs else (c :: g) :: gs

/-- JS `str.startsWith(pre)` on character lists. -/
def startsWithChars : List Char → List Char → Bool
  | _, [] => true
  | [], _ :: _ => false
  | c :: cs, d :: ds => c = d && startsWithChars cs ds

/-- JS `str.startsWith(pre)`. -/
def jsStartsWith (s pre : String) : Bool :=
  startsWithChars s.toList pre.toList

/-- JS `seg.replace(/%5F/g, "_")`: left-to-right, non-overlapping
replacement of every occurrence of the three characters `%5F` by `_`.
No other sequence is touched. -/
def replace5F : List Char → List Char
  | '%' :: '5' :: 'F' :: rest => '_' :: replace5F rest
  | c :: rest => c :: replace5F rest
  | [] => []

/-- Escape-decoding of one route segment (`%5F` → `_`). -/
def escapeSeg (s : String) : String :=
  String.mk (replace5F s.toList)

/-- Whether the character list contains the sequence `%5F` (uppercase). -/
def hasSub5F : List Char → Bool
  | '%' :: '5' :: 'F' :: _ => true
  | _ :: rest => hasSub5F rest
  | [] => false

/-- The components of a configured directory string such as `"src/app"`:
what `path.join` contributes when handed that string. -/
def pathComponents (s : String) : List String :=
  ((splitChars '/' s.toList).map String.mk).filter (fun c => c ≠ "")

/-- `parseRouteSegments` from the resolver: `"/"` yields no segments;
otherwise drop the leading slash, split on `/`, and drop empty parts
(JS `route.slice(1).split("/").filter(Boolean)`). -/
def parseRouteSegments (route : String) : List String :=
  if route = "/" then []
  else ((splitChars '/' (route.toList.drop 1)).map String.mk).filter (fun c => c ≠ "")

/-- `ResolvedConfig` from `types.ts`. -/
structure ResolvedConfig where
  appDir : String
  routeTypeFileName : String
  debug : Bool
deriving DecidableEq

/-- `DEFAULT_CONFIG` from `config.ts`. -/
def DEFAULT_CONFIG : ResolvedConfig :=
  { appDir := "src/app", routeTypeFileName := "routeType", debug := false }

/-- `RouteResolution` from `types.ts`.  The source field `exists` is a
Lean keyword and is rendered here as `existsOnDisk`. -/
structure RouteResolution where
  filePath : FsPath
  existsOnDisk : Bool
deriving DecidableEq

/-- `buildPossiblePaths` from the resolver: join project path and
`config.appDir`, escape-decode every segment, and return the `.ts` and
`.tsx` candidates inside the resulting directory, in that order. -/
def buildPossiblePaths (segments : List String) (projectPath : FsPath)
    (config : ResolvedConfig) : List FsPath :=
  let appDirPath := projectPath ++ pathComponents config.appDir
  let escapedSegments := segments.map escapeSeg
  let routeDir := if escapedSegments.length > 0 then appDirPath ++ escapedSegments else appDirPath
  [routeDir ++ [config.routeTypeFileName ++ ".ts"],
   routeDir ++ [config.routeTypeFileName ++ ".tsx"]]

/-- `resolveRouteToFile` from the resolver.  `fileExists` stands for
`typescript.sys.fileExists`, the only file-system query this function
makes.  The candidate loop returning at the first existing path is the
first-match search `List.find?`. -/
def resolveRouteToFile (fileExists : FsPath → Bool) (route : String)
    (projectPath : FsPath) (config : ResolvedConfig) : Option RouteResolution :=
  let segments := parseRouteSegments route
  let possiblePaths := buildPossiblePaths segments projectPath config
  match possiblePaths.find? (fun p => fileExists p) with
  | some filePath => some { filePath := filePath, existsOnDisk := true }
  | none =>
    match possiblePaths with
    | p :: _ => some { filePath := p, existsOnDisk := false }
    | [] => none

/-- A finite, cycle-free directory tree, the platform contract for the
directories the grouping search walks.  `listingOk` records whether
`typescript.sys.readDirectory` succeeds on this directory (it may throw,
e.g. on permission errors); `files` are the names of the plain files in
the directory and `subdirs` its immediate subdirectories in listing
order. -/
inductive FSNode where
  | node (listingOk : Bool) (files : List String) (subdirs : List (String × FSNode))

def FSNode.listingOk : FSNode → Bool
  | .node b _ _ => b

def FSNode.files : FSNode → List String
  | .node _ fs _ => fs

def FSNode.subdirs : FSNode → List (String × FSNode)
  | .node _ _ sd => sd

/-- `typescript.sys.directoryExists(path.join(currentDir, name))`, viewed
from the tree at `currentDir`: the immediate subdirectory of that name,
if any (first in listing order). -/
def lookupSubdir (n : FSNode) (name : String) : Option FSNode :=
  (n.subdirs.find? (fun e => e.1 = name)).map (fun e => e.2)

/-- `typescript.sys.readDirectory(currentDir, undefined, undefined, ["*/"])`
together with the surrounding `try`: `none` models the call throwing.
Each entry is returned with the subtree it names (the source extracts
the directory name from the listed path and rejoins it with
`path.join`). -/
def dirListing (n : FSNode) : Option (List (String × FSNode)) :=
  if n.listingOk then some n.subdirs else none

/-- The route-group test `/^\([^)]+\)$/.test(dirName)`: the whole name is
one `(`, then at least one character none of which is `)`, then one `)`. -/
def isGroupName (s : String) : Bool :=
  match s.toList with
  | [] => false
  | c :: rest =>
    c = '(' && rest.length ≥ 2 && rest.getLast? = some ')' &&
      rest.dropLast.all (fun ch => ch ≠ ')')

theorem sizeOf_lookupSubdir {n : FSNode} {nm : String} {c : FSNode}
    (h : lookupSubdir n nm = some c) : sizeOf c < sizeOf n := by
  unfold lookupSubdir at h
  cases hf : n.subdirs.find? (fun e => e.1 = nm) with
  | none => simp [hf] at h
  | some e =>
    simp [hf] at h
    have hmem := List.mem_of_find?_eq_some hf
    have h1 : sizeOf e < sizeOf n.subdirs := List.sizeOf_lt_of_mem hmem
    cases n with
    | node b fs sd =>
      simp [FSNode.subdirs] at h1
      cases e with
      | mk a ec =>
        have h2 : sizeOf ec < sizeOf (a, ec) := by simp
        simp at h
        subst h
        simp
        omega

mutual
/-- `searchDir` from the resolver: with no segments left, return the
first of `{routeTypeFileName}.ts`, `{routeTypeFileName}.tsx` that exists
in the current directory; otherwise try the subdirectory literally named
like the next segment first, then every route-group subdirectory in
listing order with the same unconsumed segments.  A failed directory
listing (`dirListing = none`) is caught and ends the branch with
`none`. -/
def searchDir (cfg : ResolvedConfig) (n : FSNode) (currentDir : FsPath)
    (remainingSegments : List String) : Option FsPath :=
  match remainingSegments with
  | [] =>
    ["ts", "tsx"].findSome? (fun ext =>
      let fileName := cfg.routeTypeFileName ++ "." ++ ext
      if n.files.contains fileName then some (currentDir ++ [fileName]) else none)
  | nextSegment :: rest =>
    if nextSegment = "" then none
    else
      let direct :=
        match h : lookupSubdir n nextSegment with
        | some child =>
          have := sizeOf_lookupSubdir h
          searchDir cfg child (currentDir ++ [nextSegment]) rest
        | none => none
      match direct with
      | some r => some r
      | none =>
        match hl : dirListing n with
        | some entries => searchGroups cfg n currentDir (nextSegment :: rest) entries
        | none => none
termination_by (sizeOf n, 0)
decreasing_by
  · exact Prod.Lex.left _ _ this
  · apply Prod.Lex.left
    unfold dirListing at hl
    split at hl
    · cases hl
      cases n with
      | node b fs sd => simp [FSNode.subdirs]
    · cases hl

/-- The `for (const entry of entries)` loop of `searchDir`: recurse into
every entry whose name passes the route-group test, returning the first
non-null result. -/
def searchGroups (cfg : ResolvedConfig) (n : FSNode) (currentDir : FsPath)
    (remainingSegments : List String) (entries : List (String × FSNode)) : Option FsPath :=
  match entries with
  | [] => none
  | (dirName, child) :: restEntries =>
    if isGroupName dirName then
      match searchDir cfg child (currentDir ++ [dirName]) remainingSegments with
      | some r => some r
      | none => searchGroups cfg n currentDir remainingSegments restEntries
    else searchGroups cfg n currentDir remainingSegments restEntries
termination_by (sizeOf entries, 1)
decreasing_by
  · apply Prod.Lex.left
    simp
    omega
  · apply Prod.Lex.left
    simp
  · apply Prod.Lex.left
    simp
end

/-- `findRouteTypeWithGroups` from the resolver.  `appNode` is the
directory tree rooted at `path.join(projectPath, config.appDir)` (a
missing app directory is the tree with failing listing and no
entries). -/
def findRouteTypeWithGroups (appNode : FSNode) (route : String)
    (projectPath : FsPath) (config : ResolvedConfig) : Option FsPath :=
  let appDirPath := projectPath ++ pathComponents config.appDir
  let segments := parseRouteSegments route
  let escapedSegments := segments.map escapeSeg
  searchDir config appNode appDirPath escapedSegments

/-- Whether the file at relative component path `p` (final component =
file name) exists in the tree `n`. -/
def fileExistsIn : FSNode → List String → Bool
  | _, [] => false
  | n, c :: rest =>
    match rest with
    | [] => n.files.contains c
    | _ :: _ =>
      match lookupSubdir n c with
      | some m => fileExistsIn m rest
      | none => false

/-- Strips `pre` off the front of `p`, if `p` starts with it. -/
def stripPre : List String → List String → Option (List String)
  | [], p => some p
  | a :: as, b :: bs => if a = b then stripPre as bs else none
  | _ :: _, [] => none

/-- The `typescript.sys.fileExists` oracle induced by the tree `appNode`
sitting at `appDirPath`: paths under the app directory are answered by
the tree, all others do not exist. -/
def treeOracle (appNode : FSNode) (appDirPath : FsPath) (p : FsPath) : Bool :=
  match stripPre appDirPath p with
  | some rel => fileExistsIn appNode rel
  | none => false

/-- The syntax-node classification the detector dispatches on
(`typescript.isStringLiteral`, `isPropertyAssignment`,
`isShorthandPropertyAssignment`, `isCallExpression`,
`isPropertyAccessExpression`, `isIdentifier`).  A string literal carries
its cooked text (`token.text`, without quotes); a shorthand property and
a member access carry the text of their name identifier. -/
inductive NodeKind where
  | stringLiteral (text : String)
  | identifier (text : String)
  | propertyAssignment
  | shorthandPropertyAssignment (name : String)
  | callExpression
  | propertyAccessExpression (name : String)
  | objectLiteral
  | other
deriving DecidableEq

/-- A positioned syntax node.  `start`/`stop` are `getStart(sourceFile)`
and `getEnd()`; `children` is the list `forEachChild` visits, in order
(for a property assignment: name then initializer; for a call: callee
then arguments). -/
inductive TsNode where
  | mk (kind : NodeKind) (start stop : Nat) (children : List TsNode)

def TsNode.kind : TsNode → NodeKind
  | .mk k _ _ _ => k

def TsNode.start : TsNode → Nat
  | .mk _ s _ _ => s

def TsNode.stop : TsNode → Nat
  | .mk _ _ e _ => e

def TsNode.children : TsNode → List TsNode
  | .mk _ _ _ cs => cs

mutual
/-- `findTokenAtPosition` from the detector: if the position lies in the
node's span, return the result of recursing over the children in
`forEachChild` order (first hit wins), else the node itself; outside the
span return nothing.  Since the embedding has no parent pointers, the
list of ancestors (innermost first) is carried alongside. -/
def findToken (position : Nat) (n : TsNode) (ancestors : List TsNode) :
    Option (TsNode × List TsNode) :=
  match n with
  | .mk k s e cs =>
    if s ≤ position ∧ position < e then
      match findTokenList position cs (TsNode.mk k s e cs :: ancestors) with
      | some r => some r
      | none => some (TsNode.mk k s e cs, ancestors)
    else none

/-- `forEachChild(node, find)`: try each child in order, first
non-`undefined` result wins. -/
def findTokenList (position : Nat) (cs : List TsNode) (ancestors : List TsNode) :
    Option (TsNode × List TsNode) :=
  match cs with
  | [] => none
  | c :: rest =>
    match findToken position c ancestors with
    | some r => some r
    | none => findTokenList position rest ancestors
end

/-- `isRoutePropertyValue` from the detector, on the ancestor chain: the
string literal's parent is a property assignment whose name identifier
is `route`, or a shorthand property assignment named `route`. -/
def isRoutePropertyValue (ancestors : List TsNode) : Bool :=
  match ancestors with
  | [] => false
  | parent :: _ =>
    match parent.kind with
    | NodeKind.propertyAssignment =>
      match parent.children with
      | nameNode :: _ =>
        match nameNode.kind with
        | NodeKind.identifier t => t = "route"
        | _ => false
      | [] => false
    | NodeKind.shorthandPropertyAssignment nm => nm = "route"
    | _ => false

/-- `isWithinPathCall` from the detector: walk from the node up through
every ancestor looking for a call expression whose callee is the bare
identifier `$path` or a member access ending in `.$path`. -/
def isWithinPathCall (chain : List TsNode) : Bool :=
  chain.any (fun current =>
    match current.kind with
    | NodeKind.callExpression =>
      match current.children with
      | expr :: _ =>
        match expr.kind with
        | NodeKind.identifier t => t = "$path"
        | NodeKind.propertyAccessExpression nm => nm = "$path"
        | _ => false
      | [] => false
    | _ => false)

/-- `ts.TextSpan`. -/
structure TextSpan where
  start : Nat
  length : Nat
deriving DecidableEq

/-- `RouteStringInfo` from `types.ts`.  The source field `end` is a Lean
keyword and is rendered here as `stop`. -/
structure RouteStringInfo where
  route : String
  start : Nat
  stop : Nat
  span : TextSpan
deriving DecidableEq

/-- `detectRouteString` from the detector: find the innermost node at the
position; it must be a string literal, be the value of a `route`
property, sit inside a `$path(...)` call, and start with `/`.  The
returned span runs from the literal's `getStart` (the opening quote) to
its `getEnd` (just past the closing quote). -/
def detectRouteString (sourceFile : TsNode) (position : Nat) : Option RouteStringInfo :=
  match findToken position sourceFile [] with
  | none => none
  | some (token, ancestors) =>
    match token.kind with
    | NodeKind.stringLiteral text =>
      if isRoutePropertyValue ancestors then
        if isWithinPathCall (token :: ancestors) then
          if jsStartsWith text "/" then
            some { route := text
                   start := token.start
                   stop := token.stop
                   span := { start := token.start, length := token.stop - token.start } }
          else none
        else none
      else none
    | _ => none

/-- The slice of `len` characters of `src` starting at offset `start`. -/
def sliceChars (src : String) (start len : Nat) : List Char :=
  (src.toList.drop start).take len

mutual
/-- Positional well-formedness of string literals against the source
text: every string-literal node spans exactly its text surrounded by
one double quote on each side, and that is what the source text holds
there.  (This is the TypeScript API contract for literals without
escape sequences; `token.text` is the cooked string value.) -/
def litsOK (src : String) : TsNode → Bool
  | .mk k s e cs =>
    (match k with
     | NodeKind.stringLiteral t =>
       (e = s + t.toList.length + 2) &&
         decide (sliceChars src s (t.toList.length + 2) = '"' :: (t.toList ++ ['"']))
     | _ => true) &&
      litsOKList src cs

/-- `litsOK` over a list of children. -/
def litsOKList (src : String) : List TsNode → Bool
  | [] => true
  | c :: cs => litsOK src c && litsOKList src cs
end

/-- The app directory joined from the project path and the config. -/
def appDirOf (projectPath : FsPath) (config : ResolvedConfig) : FsPath :=
  projectPath ++ pathComponents config.appDir

/-- The route directory: app directory plus the escape-decoded segments. -/
def routeDirOf (route : String) (projectPath : FsPath) (config : ResolvedConfig) : FsPath :=
  appDirOf projectPath config ++ (parseRouteSegments route).map escapeSeg

theorem buildPossiblePaths_eq (segments : List String) (projectPath : FsPath)
    (config : ResolvedConfig) :
    buildPossiblePaths segments projectPath config =
      [projectPath ++ pathComponents config.appDir ++ segments.map escapeSeg ++
         [config.routeTypeFileName ++ ".ts"],
       projectPath ++ pathComponents config.appDir ++ segments.map escapeSeg ++
         [config.routeTypeFileName ++ ".tsx"]] := by
  unfold buildPossiblePaths
  cases hs : segments.map escapeSeg with
  | nil => simp [hs]
  | cons a l => simp [hs]

theorem resolve_eq (fileExists : FsPath → Bool) (route : String)
    (projectPath : FsPath) (config : ResolvedConfig) :
    resolveRouteToFile fileExists route projectPath config =
      some
        (if fileExists (routeDirOf route projectPath config ++
            [config.routeTypeFileName ++ ".ts"]) then
          { filePath := routeDirOf route projectPath config ++
              [config.routeTypeFileName ++ ".ts"],
            existsOnDisk := true }
        else if fileExists (routeDirOf route projectPath config ++
            [config.routeTypeFileName ++ ".tsx"]) then
          { filePath := routeDirOf route projectPath config ++
              [config.routeTypeFileName ++ ".tsx"],
            existsOnDisk := true }
        else
          { filePath := routeDirOf route projectPath config ++
              [config.routeTypeFileName ++ ".ts"],
            existsOnDisk := false }) := by
  unfold resolveRouteToFile
  simp only [buildPossiblePaths_eq]
  unfold routeDirOf appDirOf
  cases h1 : fileExists (projectPath ++ pathComponents config.appDir ++
      (parseRouteSegments route).map escapeSeg ++ [config.routeTypeFileName ++ ".ts"]) with
  | true => simp [List.find?, h1, -List.append_assoc]
  | false =>
    cases h2 : fileExists (projectPath ++ pathComponents config.appDir ++
        (parseRouteSegments route).map escapeSeg ++ [config.routeTypeFileName ++ ".tsx"]) with
    | true => simp [List.find?, h1, h2, -List.append_assoc]
    | false => simp [List.find?, h1, h2, -List.append_assoc]

/-- **C3.** For every route string, project root, config, and `fileExists`
oracle, `resolveRouteToFile` constructs exactly the two candidate paths
`{routeDir}/{routeTypeFileName}.ts` then `{routeDir}/{routeTypeFileName}.tsx`
in that priority order, returns the first existing candidate with
`exists = true` (so the `.ts` path when both exist), returns the `.ts`
candidate with `exists = false` when neither exists, and never returns
`null`. -/
theorem C3_two_candidates_priority (fileExists : FsPath → Bool) (route : String)
    (projectPath : FsPath) (config : ResolvedConfig) :
    buildPossiblePaths (parseRouteSegments route) projectPath config =
      [routeDirOf route projectPath config ++ [config.routeTypeFileName ++ ".ts"],
       routeDirOf route projectPath config ++ [config.routeTypeFileName ++ ".tsx"]] ∧
    resolveRouteToFile fileExists route projectPath config =
      some
        (if fileExists (routeDirOf route projectPath config ++
            [config.routeTypeFileName ++ ".ts"]) then
          { filePath := routeDirOf route projectPath config ++
              [config.routeTypeFileName ++ ".ts"],
            existsOnDisk := true }
        else if fileExists (routeDirOf route projectPath config ++
            [config.routeTypeFileName ++ ".tsx"]) then
          { filePath := routeDirOf route projectPath config ++
              [config.routeTypeFileName ++ ".tsx"],
            existsOnDisk := true }
        else
          { filePath := routeDirOf route projectPath config ++
              [config.routeTypeFileName ++ ".ts"],
            existsOnDisk := false }) :=
  ⟨by rw [buildPossiblePaths_eq]; rfl, resolve_eq fileExists route projectPath config⟩

theorem replace5F_of_no5F : ∀ cs, hasSub5F cs = false → replace5F cs = cs := by
  intro cs
  induction cs using replace5F.induct with
  | case1 rest ih =>
    intro h
    simp [hasSub5F] at h
  | case2 c rest hne ih =>
    intro h
    have h' : hasSub5F rest = false := by
      rw [hasSub5F] at h
      · exact h
      · exact hne
    rw [replace5F, ih h']
    exact hne
  | case3 =>
    intro _
    rfl

theorem escapeSeg_of_no5F (s : String) (h : hasSub5F s.toList = false) : escapeSeg s = s := by
  unfold escapeSeg
  rw [replace5F_of_no5F s.toList h]
  cases s
  rfl

theorem map_escapeSeg_id : ∀ (l : List String),
    (∀ s ∈ l, hasSub5F s.toList = false) → l.map escapeSeg = l
  | [], _ => rfl
  | a :: t, h => by
    rw [List.map_cons, escapeSeg_of_no5F a (h a (List.mem_cons_self a t)),
      map_escapeSeg_id t (fun s hs => h s (List.mem_cons_of_mem a hs))]

theorem resolve_filePath_mem (fileExists : FsPath → Bool) (route : String)
    (projectPath : FsPath) (config : ResolvedConfig) :
    ∃ r, resolveRouteToFile fileExists route projectPath config = some r ∧
      r.filePath ∈ buildPossiblePaths (parseRouteSegments route) projectPath config := by
  rw [resolve_eq, buildPossiblePaths_eq]
  refine ⟨_, rfl, ?_⟩
  unfold routeDirOf appDirOf
  split
  · simp
  · split
    · simp
    · simp

/-- **C2 (counterexample).**  The returned `filePath` is *not* identical
across file-system states: with only the `.tsx` candidate existing,
`resolveRouteToFile` returns the `.tsx` path, while with no file
existing it returns the `.ts` path, for the same `(route, root,
config)`. -/
theorem C2_counterexample :
    (resolveRouteToFile (fun p => p = ["r", "src", "app", "login", "routeType.tsx"])
        "/login" ["r"] DEFAULT_CONFIG).map RouteResolution.filePath =
      some ["r", "src", "app", "login", "routeType.tsx"] ∧
    (resolveRouteToFile (fun _ => false)
        "/login" ["r"] DEFAULT_CONFIG).map RouteResolution.filePath =
      some ["r", "src", "app", "login", "routeType.ts"] ∧
    (["r", "src", "app", "login", "routeType.tsx"] : FsPath) ≠
      ["r", "src", "app", "login", "routeType.ts"] := by
  refine ⟨by decide, by decide, by decide⟩

/-- **C2 (amended).**  What is file-system independent is the candidate
*construction*: for every route starting with `/`, project root and
config, and any two `fileExists` oracles, both runs return a non-null
result, and each returned `filePath` is one of the two candidate paths
`buildPossiblePaths` computes from `(route, root, config)` alone — the
file-system state influences only the `exists` flag and which of the
two candidates (`.ts` preferred) is selected. -/
theorem C2_construction_fs_independent (fe1 fe2 : FsPath → Bool) (route : String)
    (projectPath : FsPath) (config : ResolvedConfig)
    (hroute : jsStartsWith route "/" = true) :
    ∃ r1 r2, resolveRouteToFile fe1 route projectPath config = some r1 ∧
      resolveRouteToFile fe2 route projectPath config = some r2 ∧
      r1.filePath ∈ buildPossiblePaths (parseRouteSegments route) projectPath config ∧
      r2.filePath ∈ buildPossiblePaths (parseRouteSegments route) projectPath config := by
  obtain ⟨r1, h1, m1⟩ := resolve_filePath_mem fe1 route projectPath config
  obtain ⟨r2, h2, m2⟩ := resolve_filePath_mem fe2 route projectPath config
  exact ⟨r1, r2, h1, h2, m1, m2⟩

/-- Witness for C2 (amended) at a concrete instance. -/
theorem C2_witness :
    jsStartsWith "/login" "/" = true ∧
    (∃ r1 r2, resolveRouteToFile (fun _ => true) "/login" ["r"] DEFAULT_CONFIG = some r1 ∧
      resolveRouteToFile (fun _ => false) "/login" ["r"] DEFAULT_CONFIG = some r2 ∧
      r1.filePath ∈ buildPossiblePaths (parseRouteSegments "/login") ["r"] DEFAULT_CONFIG ∧
      r2.filePath ∈ buildPossiblePaths (parseRouteSegments "/login") ["r"] DEFAULT_CONFIG) :=
  ⟨by decide,
   C2_construction_fs_independent (fun _ => true) (fun _ => false) "/login" ["r"]
     DEFAULT_CONFIG (by decide)⟩

/-- **C6.**  Segment decoding replaces every occurrence of the literal
sequence `%5F` by `_` and performs no other percent-decoding:
`/%5Finternal` parses to `["_internal"]`, `/%5F%5Fdbl` to `["__dbl"]`,
and a segment with no occurrence of `%5F` (in particular any other
percent-escape such as `%2F` or `%20`) is left verbatim. -/
theorem C6_escape_decoding :
    ((parseRouteSegments "/%5Finternal").map escapeSeg = ["_internal"]) ∧
    ((parseRouteSegments "/%5F%5Fdbl").map escapeSeg = ["__dbl"]) ∧
    (∀ s : String, hasSub5F s.toList = false → escapeSeg s = s) := by
  refine ⟨by decide, by decide, ?_⟩
  intro s h
  exact escapeSeg_of_no5F s h

/-- Witness for C6 at a concrete instance: the other percent-escape
`%2F` is left verbatim. -/
theorem C6_witness : hasSub5F "%2Fseg".toList = false ∧ escapeSeg "%2Fseg" = "%2Fseg" :=
  ⟨by decide, C6_escape_decoding.2.2 "%2Fseg" (by decide)⟩

/-- An app directory containing a directory literally named `%5finternal`
(lowercase escape) with a route-type file inside. -/
def c10Tree : FSNode :=
  .node true [] [("%5finternal", .node true ["routeType.ts"] [])]

/-- **C10.**  Escape decoding is case-sensitive at the public interface
of both resolvers.  Only the exact uppercase sequence `%5F` is decoded
(to `_`, at every occurrence); every route segment free of the
uppercase sequence `%5F` — in particular any segment containing the
lowercase `%5f` — is left verbatim by the decoder, appears verbatim in
the candidate path returned by `resolveRouteToFile`, and is searched
verbatim (unescaped) by `findRouteTypeWithGroups`, for every
filesystem state, project root and config. -/
theorem C10_escape_case_sensitive :
    escapeSeg "%5F" = "_" ∧ escapeSeg "%5f" = "%5f" ∧
    (∀ cs : List Char, replace5F ('%' :: '5' :: 'F' :: cs) = '_' :: replace5F cs) ∧
    (∀ s : String, hasSub5F s.toList = false → escapeSeg s = s) ∧
    (∀ (fileExists : FsPath → Bool) (route : String) (projectPath : FsPath)
        (config : ResolvedConfig),
      (∀ s ∈ parseRouteSegments route, hasSub5F s.toList = false) →
      ∃ res, resolveRouteToFile fileExists route projectPath config = some res ∧
        (res.filePath = projectPath ++ pathComponents config.appDir ++
            parseRouteSegments route ++ [config.routeTypeFileName ++ ".ts"] ∨
         res.filePath = projectPath ++ pathComponents config.appDir ++
            parseRouteSegments route ++ [config.routeTypeFileName ++ ".tsx"])) ∧
    (∀ (appNode : FSNode) (route : String) (projectPath : FsPath) (config : ResolvedConfig),
      (∀ s ∈ parseRouteSegments route, hasSub5F s.toList = false) →
      findRouteTypeWithGroups appNode route projectPath config =
        searchDir config appNode (projectPath ++ pathComponents config.appDir)
          (parseRouteSegments route)) := by
  refine ⟨by decide, by decide, fun cs => rfl, fun s h => escapeSeg_of_no5F s h, ?_, ?_⟩
  · intro fileExists route projectPath config h
    rw [resolve_eq]
    refine ⟨_, rfl, ?_⟩
    unfold routeDirOf appDirOf
    rw [map_escapeSeg_id (parseRouteSegments route) h]
    split
    · exact Or.inl rfl
    · split
      · exact Or.inr rfl
      · exact Or.inl rfl
  · intro appNode route projectPath config h
    show searchDir config appNode (projectPath ++ pathComponents config.appDir)
      ((parseRouteSegments route).map escapeSeg) = _
    rw [map_escapeSeg_id (parseRouteSegments route) h]

/-- Witness for C10 at a concrete instance: the lowercase escape
`%5finternal` flows verbatim through both resolvers. -/
theorem C10_witness :
    (∀ s ∈ parseRouteSegments "/%5finternal", hasSub5F s.toList = false) ∧
    (∃ res, resolveRouteToFile (fun _ => false) "/%5finternal" ["r"] DEFAULT_CONFIG =
        some res ∧
      (res.filePath = ["r"] ++ pathComponents DEFAULT_CONFIG.appDir ++
          parseRouteSegments "/%5finternal" ++ [DEFAULT_CONFIG.routeTypeFileName ++ ".ts"] ∨
       res.filePath = ["r"] ++ pathComponents DEFAULT_CONFIG.appDir ++
          parseRouteSegments "/%5finternal" ++ [DEFAULT_CONFIG.routeTypeFileName ++ ".tsx"])) ∧
    findRouteTypeWithGroups c10Tree "/%5finternal" ["r"] DEFAULT_CONFIG =
      searchDir DEFAULT_CONFIG c10Tree (["r"] ++ pathComponents DEFAULT_CONFIG.appDir)
        (parseRouteSegments "/%5finternal") :=
  ⟨by decide,
   C10_escape_case_sensitive.2.2.2.2.1 (fun _ => false) "/%5finternal" ["r"]
     DEFAULT_CONFIG (by decide),
   C10_escape_case_sensitive.2.2.2.2.2 c10Tree "/%5finternal" ["r"]
     DEFAULT_CONFIG (by decide)⟩

theorem searchGroups_eq_findSome (cfg : ResolvedConfig) (n : FSNode) (cur : FsPath)
    (segs : List String) (entries : List (String × FSNode)) :
    searchGroups cfg n cur segs entries =
      entries.findSome? (fun e =>
        if isGroupName e.1 then searchDir cfg e.2 (cur ++ [e.1]) segs else none) := by
  induction entries with
  | nil => simp [searchGroups]
  | cons e rest ih =>
    obtain ⟨nm, child⟩ := e
    simp only [searchGroups, List.findSome?]
    cases hg : isGroupName nm with
    | false => simpa [hg] using ih
    | true =>
      cases hs : searchDir cfg child (cur ++ [nm]) segs with
      | some r => simp [hg, hs]
      | none => simpa [hg, hs] using ih

theorem searchDir_cons (cfg : ResolvedConfig) (n : FSNode) (cur : FsPath)
    (h : String) (t : List String) (hne : h ≠ "") :
    searchDir cfg n cur (h :: t) =
      Option.orElse
        (match lookupSubdir n h with
         | some child => searchDir cfg child (cur ++ [h]) t
         | none => none)
        (fun _ =>
          if n.listingOk then
            n.subdirs.findSome? (fun e =>
              if isGroupName e.1 then searchDir cfg e.2 (cur ++ [e.1]) (h :: t) else none)
          else none) := by
  conv_lhs => rw [searchDir]
  rw [if_neg hne]
  split
  · rename_i fp heq
    conv_rhs => rw [heq]
    cases hs : searchDir cfg fp (cur ++ [h]) t with
    | some r => simp [hs, Option.orElse]
    | none =>
      dsimp only
      simp only [hs, Option.orElse]
      split
      · rename_i entries hle
        unfold dirListing at hle
        split at hle
        · rename_i hok
          cases hle
          rw [if_pos hok, searchGroups_eq_findSome]
        · cases hle
      · rename_i hle
        unfold dirListing at hle
        split at hle
        · cases hle
        · rename_i hok
          rw [if_neg hok]
  · rename_i heq
    conv_rhs => rw [heq]
    dsimp only
    simp only [Option.orElse]
    split
    · rename_i entries hle
      unfold dirListing at hle
      split at hle
      · rename_i hok
        cases hle
        rw [if_pos hok, searchGroups_eq_findSome]
      · cases hle
    · rename_i hle
      unfold dirListing at hle
      split at hle
      · cases hle
      · rename_i hok
        rw [if_neg hok]

theorem searchDir_nil (cfg : ResolvedConfig) (n : FSNode) (cur : FsPath) :
    searchDir cfg n cur [] =
      (if (cfg.routeTypeFileName ++ ".ts") ∈ n.files then
        some (cur ++ [cfg.routeTypeFileName ++ ".ts"])
      else if (cfg.routeTypeFileName ++ ".tsx") ∈ n.files then
        some (cur ++ [cfg.routeTypeFileName ++ ".tsx"])
      else none) := by
  have e1 : cfg.routeTypeFileName ++ "." ++ "ts" = cfg.routeTypeFileName ++ ".ts" := by
    rw [String.append_assoc]
    rfl
  have e2 : cfg.routeTypeFileName ++ "." ++ "tsx" = cfg.routeTypeFileName ++ ".tsx" := by
    rw [String.append_assoc]
    rfl
  simp only [searchDir, List.findSome?, e1, e2]
  by_cases h1 : (cfg.routeTypeFileName ++ ".ts") ∈ n.files
  · simp [h1]
  · by_cases h2 : (cfg.routeTypeFileName ++ ".tsx") ∈ n.files
    · simp [h1, h2]
    · simp [h1, h2]

/-- **C1.**  `searchDir`, the worker of `findRouteTypeWithGroups`, is a
depth-first, first-success search: with no segments remaining it returns
the path of `{routeTypeFileName}.ts` if that file exists in the current
directory, else of `{routeTypeFileName}.tsx` if that exists, else
`null`; with remaining segments `head :: rest` (a route segment is never
empty) it first recurses into the subdirectory literally named `head`
with `rest`, returns that result immediately if non-null, and otherwise
recurses, with the same unconsumed segment list, into each immediate
subdirectory whose name is fully wrapped in parentheses with non-empty
interior, in listing order, returning the first non-null result. -/
theorem C1_depth_first_search (cfg : ResolvedConfig) (n : FSNode) (cur : FsPath) :
    (searchDir cfg n cur [] =
      (if (cfg.routeTypeFileName ++ ".ts") ∈ n.files then
        some (cur ++ [cfg.routeTypeFileName ++ ".ts"])
      else if (cfg.routeTypeFileName ++ ".tsx") ∈ n.files then
        some (cur ++ [cfg.routeTypeFileName ++ ".tsx"])
      else none)) ∧
    (∀ (h : String) (t : List String), h ≠ "" →
      searchDir cfg n cur (h :: t) =
        Option.orElse
          (match lookupSubdir n h with
           | some child => searchDir cfg child (cur ++ [h]) t
           | none => none)
          (fun _ =>
            if n.listingOk then
              n.subdirs.findSome? (fun e =>
                if isGroupName e.1 then searchDir cfg e.2 (cur ++ [e.1]) (h :: t) else none)
            else none)) :=
  ⟨searchDir_nil cfg n cur, fun h t hne => searchDir_cons cfg n cur h t hne⟩

/-- A small app directory used to witness C1 concretely. -/
def c1Tree : FSNode :=
  .node true [] [("(g)", .node true [] [("users", .node true ["routeType.ts"] [])])]

/-- Witness for C1 at a concrete instance. -/
theorem C1_witness :
    ("users" ≠ "") ∧
    searchDir DEFAULT_CONFIG c1Tree ["app"] ["users"] =
      Option.orElse
        (match lookupSubdir c1Tree "users" with
         | some child => searchDir DEFAULT_CONFIG child (["app"] ++ ["users"]) []
         | none => none)
        (fun _ =>
          if c1Tree.listingOk then
            c1Tree.subdirs.findSome? (fun e =>
              if isGroupName e.1 then
                searchDir DEFAULT_CONFIG e.2 (["app"] ++ [e.1]) ["users"]
              else none)
          else none) :=
  ⟨by decide, (C1_depth_first_search DEFAULT_CONFIG c1Tree ["app"]).2 "users" [] (by decide)⟩

/-- **C7.**  A failed directory listing is treated as an empty listing:
at a directory whose `readDirectory` throws, the result is exactly the
direct-descent branch — the grouping branch contributes `null`, the
search continues and terminates normally, and no error value is
produced (the embedded function is total and `Option`-valued, matching
the `try`/`catch` in the source that downgrades the failure). -/
theorem C7_listing_failure_degrades (cfg : ResolvedConfig) (files : List String)
    (subs : List (String × FSNode)) (cur : FsPath) (segs : List String) :
    searchDir cfg (.node false files subs) cur segs =
      (match segs with
       | [] =>
         if (cfg.routeTypeFileName ++ ".ts") ∈ files then
           some (cur ++ [cfg.routeTypeFileName ++ ".ts"])
         else if (cfg.routeTypeFileName ++ ".tsx") ∈ files then
           some (cur ++ [cfg.routeTypeFileName ++ ".tsx"])
         else none
       | h :: t =>
         if h = "" then none
         else
           match lookupSubdir (FSNode.node false files subs) h with
           | some child => searchDir cfg child (cur ++ [h]) t
           | none => none) := by
  cases segs with
  | nil => rw [searchDir_nil]; rfl
  | cons h t =>
    by_cases hne : h = ""
    · subst hne
      conv_lhs => rw [searchDir]
      simp
    · rw [searchDir_cons cfg _ cur h t hne]
      dsimp only
      rw [if_neg hne]
      cases hd : lookupSubdir (FSNode.node false files subs) h with
      | some child =>
        cases hs : searchDir cfg child (cur ++ [h]) t with
        | some r => simp [hd, hs, Option.orElse, FSNode.listingOk]
        | none => simp [hd, hs, Option.orElse, FSNode.listingOk]
      | none => simp [hd, Option.orElse, FSNode.listingOk]

/-- `fileExistsIn`, re-indexed: the directory component path and the
final file name, separately. -/
def pathFileExists : FSNode → List String → String → Bool
  | n, [], f => n.files.contains f
  | n, d :: rest, f =>
    match lookupSubdir n d with
    | some m => pathFileExists m rest f
    | none => false

theorem fileExistsIn_append (dirs : List String) :
    ∀ (n : FSNode) (f : String), fileExistsIn n (dirs ++ [f]) = pathFileExists n dirs f := by
  induction dirs with
  | nil => intro n f; rfl
  | cons d rest ih =>
    intro n f
    rw [List.cons_append]
    cases hr : rest ++ [f] with
    | nil => simp at hr
    | cons a l =>
      simp only [fileExistsIn, pathFileExists]
      cases hd : lookupSubdir n d with
      | some m =>
        simp only [hd]
        show fileExistsIn m (a :: l) = pathFileExists m rest f
        rw [← hr]
        exact ih m f
      | none => simp [hd]

theorem stripPre_append (a b : List String) : stripPre a (a ++ b) = some b := by
  induction a with
  | nil => rfl
  | cons x rest ih => simp [stripPre, ih]

theorem searchDir_direct_ts (cfg : ResolvedConfig) (segs : List String) :
    ∀ (n : FSNode) (cur : FsPath), "" ∉ segs →
      pathFileExists n segs (cfg.routeTypeFileName ++ ".ts") = true →
      searchDir cfg n cur segs = some (cur ++ segs ++ [cfg.routeTypeFileName ++ ".ts"]) := by
  induction segs with
  | nil =>
    intro n cur _ hex
    rw [searchDir_nil]
    simp only [pathFileExists] at hex
    simp at hex
    simp [hex]
  | cons s rest ih =>
    intro n cur hne hex
    have hs : s ≠ "" := fun h => hne (h ▸ List.mem_cons_self s rest)
    have hrest : "" ∉ rest := fun h => hne (List.mem_cons_of_mem s h)
    cases hd : lookupSubdir n s with
    | none => simp [pathFileExists, hd] at hex
    | some m =>
      have hex' : pathFileExists m rest (cfg.routeTypeFileName ++ ".ts") = true := by
        simpa [pathFileExists, hd] using hex
      rw [searchDir_cons cfg n cur s rest hs, hd]
      dsimp only
      rw [ih m (cur ++ [s]) hrest hex']
      simp [Option.orElse]

theorem searchDir_direct_tsx (cfg : ResolvedConfig) (segs : List String) :
    ∀ (n : FSNode) (cur : FsPath), "" ∉ segs →
      pathFileExists n segs (cfg.routeTypeFileName ++ ".ts") = false →
      pathFileExists n segs (cfg.routeTypeFileName ++ ".tsx") = true →
      searchDir cfg n cur segs = some (cur ++ segs ++ [cfg.routeTypeFileName ++ ".tsx"]) := by
  induction segs with
  | nil =>
    intro n cur _ hts htsx
    rw [searchDir_nil]
    simp only [pathFileExists] at hts htsx
    simp at hts htsx
    simp [hts, htsx]
  | cons s rest ih =>
    intro n cur hne hts htsx
    have hs : s ≠ "" := fun h => hne (h ▸ List.mem_cons_self s rest)
    have hrest : "" ∉ rest := fun h => hne (List.mem_cons_of_mem s h)
    cases hd : lookupSubdir n s with
    | none => simp [pathFileExists, hd] at htsx
    | some m =>
      have hts' : pathFileExists m rest (cfg.routeTypeFileName ++ ".ts") = false := by
        simpa [pathFileExists, hd] using hts
      have htsx' : pathFileExists m rest (cfg.routeTypeFileName ++ ".tsx") = true := by
        simpa [pathFileExists, hd] using htsx
      rw [searchDir_cons cfg n cur s rest hs, hd]
      dsimp only
      rw [ih m (cur ++ [s]) hrest hts' htsx']
      simp [Option.orElse]

theorem escapeSeg_ne_empty (s : String) (h : s ≠ "") : escapeSeg s ≠ "" := by
  intro hc
  apply h
  have hl : replace5F s.toList = [] := congrArg String.data hc
  have hnil : s.toList = [] := by
    revert hl
    induction s.toList using replace5F.induct with
    | case1 rest ih => intro hl; simp [replace5F] at hl
    | case2 c rest hne ih =>
      intro hl
      rw [replace5F] at hl
      · simp at hl
      · exact hne
    | case3 => intro _; rfl
  cases s with
  | mk data =>
    have hd : data = [] := by simpa using hnil
    rw [hd]

theorem parse_no_empty (route : String) : "" ∉ (parseRouteSegments route).map escapeSeg := by
  intro hmem
  obtain ⟨s, hs, hes⟩ := List.mem_map.mp hmem
  unfold parseRouteSegments at hs
  split at hs
  · simp at hs
  · have h2 := (List.mem_filter.mp hs).2
    simp at h2
    exact escapeSeg_ne_empty s h2 hes

/-- **C9.**  The grouping-aware search refines direct resolution: when
the `fileExists` oracle is induced by a directory tree (under which
every existing file's ancestor directories exist, as on a real file
system), any `exists = true` result of `resolveRouteToFile` is found at
the same path by `findRouteTypeWithGroups` — the direct-descent branch
is tried first at every level and reaches the same file with the same
`.ts`-before-`.tsx` priority. -/
theorem C9_group_search_refines_direct (appNode : FSNode) (route : String)
    (projectPath : FsPath) (config : ResolvedConfig) (p : FsPath)
    (hres : resolveRouteToFile
        (treeOracle appNode (projectPath ++ pathComponents config.appDir))
        route projectPath config =
      some { filePath := p, existsOnDisk := true }) :
    findRouteTypeWithGroups appNode route projectPath config = some p := by
  rw [resolve_eq] at hres
  set A := projectPath ++ pathComponents config.appDir with hA
  set segs := (parseRouteSegments route).map escapeSeg with hsegs
  have hdir : routeDirOf route projectPath config = A ++ segs := by
    unfold routeDirOf appDirOf
    rw [hA, hsegs]
  have hnoemp : "" ∉ segs := hsegs ▸ parse_no_empty route
  have hots : treeOracle appNode A (A ++ segs ++ [config.routeTypeFileName ++ ".ts"]) =
      pathFileExists appNode segs (config.routeTypeFileName ++ ".ts") := by
    unfold treeOracle
    rw [List.append_assoc, stripPre_append]
    dsimp only
    rw [fileExistsIn_append]
  have hotsx : treeOracle appNode A (A ++ segs ++ [config.routeTypeFileName ++ ".tsx"]) =
      pathFileExists appNode segs (config.routeTypeFileName ++ ".tsx") := by
    unfold treeOracle
    rw [List.append_assoc, stripPre_append]
    dsimp only
    rw [fileExistsIn_append]
  rw [hdir] at hres
  simp only [hots, hotsx] at hres
  unfold findRouteTypeWithGroups
  by_cases h1 : pathFileExists appNode segs (config.routeTypeFileName ++ ".ts") = true
  · rw [if_pos h1] at hres
    simp only [Option.some.injEq, RouteResolution.mk.injEq] at hres
    rw [searchDir_direct_ts config segs appNode A hnoemp h1]
    rw [hres.1]
  · rw [if_neg h1] at hres
    by_cases h2 : pathFileExists appNode segs (config.routeTypeFileName ++ ".tsx") = true
    · rw [if_pos h2] at hres
      simp only [Option.some.injEq, RouteResolution.mk.injEq] at hres
      rw [searchDir_direct_tsx config segs appNode A hnoemp
        (Bool.not_eq_true _ ▸ h1) h2]
      rw [hres.1]
    · rw [if_neg h2] at hres
      simp at hres

/-- An app directory with `login/routeType.ts`, used to witness C9. -/
def c9Tree : FSNode :=
  .node true [] [("login", .node true ["routeType.ts"] [])]

/-- Witness for C9 at a concrete instance. -/
theorem C9_witness :
    resolveRouteToFile (treeOracle c9Tree (["r"] ++ pathComponents DEFAULT_CONFIG.appDir))
        "/login" ["r"] DEFAULT_CONFIG =
      some { filePath := ["r", "src", "app", "login", "routeType.ts"], existsOnDisk := true } ∧
    findRouteTypeWithGroups c9Tree "/login" ["r"] DEFAULT_CONFIG =
      some ["r", "src", "app", "login", "routeType.ts"] :=
  ⟨by decide,
   C9_group_search_refines_direct c9Tree "/login" ["r"] DEFAULT_CONFIG
     ["r", "src", "app", "login", "routeType.ts"] (by decide)⟩

theorem sizeOf_mem_subdirs {n : FSNode} {e : String × FSNode}
    (h : e ∈ n.subdirs) : sizeOf e.2 < sizeOf n := by
  have h1 : sizeOf e < sizeOf n.subdirs := List.sizeOf_lt_of_mem h
  cases n with
  | node b fs sd =>
    simp [FSNode.subdirs] at h1
    cases e with
    | mk a ec =>
      have h2 : sizeOf ec < sizeOf (a, ec) := by simp
      simp only []
      simp
      omega

theorem sizeOf_pos_fsnode (n : FSNode) : 0 < sizeOf n := by
  cases n with
  | node b fs sd => simp

theorem searchDir_decomp (cfg : ResolvedConfig) :
    ∀ (N : Nat) (n : FSNode), sizeOf n ≤ N →
      ∀ (cur : FsPath) (segs : List String) (p : FsPath),
        (∀ s ∈ segs, isGroupName s = false) →
        searchDir cfg n cur segs = some p →
        ∃ dirs f, p = cur ++ dirs ++ [f] ∧
          (f = cfg.routeTypeFileName ++ ".ts" ∨ f = cfg.routeTypeFileName ++ ".tsx") ∧
          dirs.filter (fun d => !isGroupName d) = segs := by
  intro N
  induction N with
  | zero =>
    intro n hn
    exact absurd hn (by have := sizeOf_pos_fsnode n; omega)
  | succ N ihN =>
    intro n hn cur segs p hseg hsearch
    cases segs with
    | nil =>
      rw [searchDir_nil] at hsearch
      split at hsearch
      · exact ⟨[], cfg.routeTypeFileName ++ ".ts", by simpa using hsearch.symm, Or.inl rfl, rfl⟩
      · split at hsearch
        · exact ⟨[], cfg.routeTypeFileName ++ ".tsx", by simpa using hsearch.symm, Or.inr rfl, rfl⟩
        · cases hsearch
    | cons s rest =>
      by_cases hse : s = ""
      · subst hse
        rw [searchDir] at hsearch
        simp at hsearch
      · rw [searchDir_cons cfg n cur s rest hse] at hsearch
        have group_case :
            (if n.listingOk then
              n.subdirs.findSome? (fun e =>
                if isGroupName e.1 then searchDir cfg e.2 (cur ++ [e.1]) (s :: rest) else none)
            else none) = some p →
            ∃ dirs f, p = cur ++ dirs ++ [f] ∧
              (f = cfg.routeTypeFileName ++ ".ts" ∨ f = cfg.routeTypeFileName ++ ".tsx") ∧
              dirs.filter (fun d => !isGroupName d) = s :: rest := by
          intro hg
          split at hg
          · obtain ⟨e, hmem, he⟩ := List.exists_of_findSome?_eq_some hg
            split at he
            · rename_i hgrp
              have hsz : sizeOf e.2 ≤ N := by
                have := sizeOf_mem_subdirs hmem
                omega
              obtain ⟨dirs', f, hp, hf, hfil⟩ :=
                ihN e.2 hsz (cur ++ [e.1]) (s :: rest) p hseg he
              refine ⟨e.1 :: dirs', f, ?_, hf, ?_⟩
              · simp [hp]
              · simp [List.filter, hgrp, hfil]
            · cases he
          · cases hg
        cases hd : lookupSubdir n s with
        | some child =>
          rw [hd] at hsearch
          dsimp only at hsearch
          cases hres : searchDir cfg child (cur ++ [s]) rest with
          | some r =>
            rw [hres] at hsearch
            simp only [Option.orElse] at hsearch
            have hsz : sizeOf child ≤ N := by
              have := sizeOf_lookupSubdir hd
              omega
            have hrest : ∀ x ∈ rest, isGroupName x = false :=
              fun x hx => hseg x (List.mem_cons_of_mem s hx)
            obtain ⟨dirs', f, hp, hf, hfil⟩ :=
              ihN child hsz (cur ++ [s]) rest r hrest hres
            have hps : p = r := by simpa using hsearch.symm
            refine ⟨s :: dirs', f, ?_, hf, ?_⟩
            · simp [hps, hp]
            · have hsg : isGroupName s = false := hseg s (List.mem_cons_self s rest)
              simp [List.filter, hsg, hfil]
          | none =>
            rw [hres] at hsearch
            simp only [Option.orElse] at hsearch
            exact group_case hsearch
        | none =>
          rw [hd] at hsearch
          dsimp only at hsearch
          simp only [Option.orElse] at hsearch
          exact group_case hsearch

/-- An app directory whose only entry is a grouping-named directory
holding the route-type file, reachable by the *direct* branch when the
route segment itself is parenthesis-shaped. -/
def c5Tree : FSNode :=
  .node true [] [("(g)", .node true ["routeType.ts"] [])]

/-- **C5 (counterexample).**  A route segment that is itself
parenthesis-shaped (e.g. `/(g)`) is consumed by the direct-descent
branch, so the returned path traverses a grouping-named directory that
*does* account for a URL segment: the non-group directories of the
result (`[]`) are not the decoded segments (`["(g)"]`). -/
theorem C5_counterexample :
    findRouteTypeWithGroups c5Tree "/(g)" [] DEFAULT_CONFIG =
      some (["src", "app"] ++ ["(g)"] ++ ["routeType.ts"]) ∧
    (parseRouteSegments "/(g)").map escapeSeg = ["(g)"] ∧
    (["(g)"].filter (fun d => !isGroupName d)) = [] ∧
    ([] : List String) ≠ ["(g)"] := by
  refine ⟨?_, by decide, by decide, by decide⟩
  simp +decide [findRouteTypeWithGroups, searchDir, searchGroups, lookupSubdir, dirListing,
    isGroupName, FSNode.subdirs, FSNode.files, FSNode.listingOk, List.find?, List.findSome?,
    parseRouteSegments, splitChars, escapeSeg, replace5F, c5Tree, pathComponents]

/-- **C5 (amended).**  Provided no decoded route segment is itself
parenthesis-shaped (grouping-shaped), every non-null result of
`findRouteTypeWithGroups` decomposes as the app root directory, a
sequence of traversed directories, and the definition file name, where
the traversed directories that are not grouping-named are exactly the
decoded segments in order; consequently the segment count is the
directory depth minus the number of traversed grouping directories. -/
theorem C5_group_dirs_transparent (appNode : FSNode) (route : String)
    (projectPath : FsPath) (config : ResolvedConfig) (p : FsPath)
    (hgroups : ∀ s ∈ (parseRouteSegments route).map escapeSeg, isGroupName s = false)
    (hfound : findRouteTypeWithGroups appNode route projectPath config = some p) :
    ∃ dirs f, p = (projectPath ++ pathComponents config.appDir) ++ dirs ++ [f] ∧
      (f = config.routeTypeFileName ++ ".ts" ∨ f = config.routeTypeFileName ++ ".tsx") ∧
      dirs.filter (fun d => !isGroupName d) = (parseRouteSegments route).map escapeSeg ∧
      dirs.length = ((parseRouteSegments route).map escapeSeg).length +
        (dirs.filter (fun d => isGroupName d)).length := by
  unfold findRouteTypeWithGroups at hfound
  obtain ⟨dirs, f, hp, hf, hfil⟩ :=
    searchDir_decomp config (sizeOf appNode) appNode le_rfl
      (projectPath ++ pathComponents config.appDir)
      ((parseRouteSegments route).map escapeSeg) p hgroups hfound
  refine ⟨dirs, f, hp, hf, hfil, ?_⟩
  have := List.length_eq_length_filter_add (l := dirs) (fun d => isGroupName d)
  rw [← hfil]
  omega

/-- An app directory with `users/routeType.ts`, used to witness C5. -/
def c5wTree : FSNode :=
  .node true [] [("users", .node true ["routeType.ts"] [])]

/-- Witness for C5 (amended) at a concrete instance. -/
theorem C5_witness :
    ∃ dirs f,
      (["src", "app", "users", "routeType.ts"] : FsPath) =
        (([] : FsPath) ++ pathComponents DEFAULT_CONFIG.appDir) ++ dirs ++ [f] ∧
      (f = DEFAULT_CONFIG.routeTypeFileName ++ ".ts" ∨
        f = DEFAULT_CONFIG.routeTypeFileName ++ ".tsx") ∧
      dirs.filter (fun d => !isGroupName d) = (parseRouteSegments "/users").map escapeSeg ∧
      dirs.length = ((parseRouteSegments "/users").map escapeSeg).length +
        (dirs.filter (fun d => isGroupName d)).length :=
  C5_group_dirs_transparent c5wTree "/users" [] DEFAULT_CONFIG
    ["src", "app", "users", "routeType.ts"] (by decide)
    (by simp +decide [findRouteTypeWithGroups, searchDir, searchGroups, lookupSubdir, dirListing,
      isGroupName, FSNode.subdirs, FSNode.files, FSNode.listingOk, List.find?, List.findSome?,
      parseRouteSegments, splitChars, escapeSeg, replace5F, c5wTree, pathComponents])

/-- The link between a node and the ancestor chain carried by
`findToken`: the node is a child of the chain's head (vacuous at the
root). -/
def chainOk (t : TsNode) : List TsNode → Prop
  | [] => True
  | p :: _ => t ∈ p.children

theorem litsOKList_mem {src : String} {cs : List TsNode} (h : litsOKList src cs = true) :
    ∀ c ∈ cs, litsOK src c = true := by
  induction cs with
  | nil => intro c hc; cases hc
  | cons a rest ih =>
    rw [litsOKList] at h
    simp only [Bool.and_eq_true] at h
    intro c hc
    cases hc with
    | head => exact h.1
    | tail _ hm => exact ih h.2 c hm

theorem litsOK_children {src : String} {k : NodeKind} {s e : Nat} {cs : List TsNode}
    (h : litsOK src (TsNode.mk k s e cs) = true) : litsOKList src cs = true := by
  cases k <;> simp [litsOK, Bool.and_eq_true] at h <;> first | exact h.2 | exact h

theorem findToken_inv (src : String) (position : Nat) :
    ∀ (n : TsNode) (anc : List TsNode),
      (∀ tok chain, findToken position n anc = some (tok, chain) →
        (chainOk n anc → chainOk tok chain) ∧
        (litsOK src n = true → litsOK src tok = true)) := by
  refine findToken.induct position
    (fun n anc => ∀ tok chain, findToken position n anc = some (tok, chain) →
      (chainOk n anc → chainOk tok chain) ∧
      (litsOK src n = true → litsOK src tok = true))
    (fun cs anc => ∀ tok chain, findTokenList position cs anc = some (tok, chain) →
      ((∀ c ∈ cs, chainOk c anc) → chainOk tok chain) ∧
      ((∀ c ∈ cs, litsOK src c = true) → litsOK src tok = true))
    ?_ ?_ ?_ ?_ ?_ ?_
  · intro anc k s e cs hspan r hlist ih tok chain hft
    rw [findToken, if_pos hspan, hlist] at hft
    simp only [Option.some.injEq] at hft
    have := ih tok chain (hlist.trans (congrArg some hft))
    constructor
    · intro _
      exact this.1 (fun c hc => hc)
    · intro hok
      apply this.2
      exact litsOKList_mem (litsOK_children hok)
  · intro anc k s e cs hspan hlist ih tok chain hft
    rw [findToken, if_pos hspan, hlist] at hft
    simp only [Option.some.injEq, Prod.mk.injEq] at hft
    obtain ⟨h1, h2⟩ := hft
    subst h1
    subst h2
    exact ⟨fun h => h, fun h => h⟩
  · intro anc k s e cs hspan tok chain hft
    rw [findToken, if_neg hspan] at hft
    cases hft
  · intro anc tok chain hft
    rw [findTokenList] at hft
    cases hft
  · intro anc c rest r hc ihc tok chain hft
    rw [findTokenList, hc] at hft
    simp only [Option.some.injEq] at hft
    have := ihc tok chain (hc.trans (congrArg some hft))
    refine ⟨fun hall => this.1 (hall c (List.mem_cons_self c rest)), 
      fun hall => this.2 (hall c (List.mem_cons_self c rest))⟩
  · intro anc c rest hc ihc ihrest tok chain hft
    rw [findTokenList, hc] at hft
    have := ihrest tok chain hft
    refine ⟨fun hall => this.1 (fun x hx => hall x (List.mem_cons_of_mem c hx)),
      fun hall => this.2 (fun x hx => hall x (List.mem_cons_of_mem c hx))⟩

theorem litsOK_literal {src : String} {t : String} {s e : Nat} {cs : List TsNode}
    (h : litsOK src (TsNode.mk (NodeKind.stringLiteral t) s e cs) = true) :
    e = s + t.toList.length + 2 ∧
      sliceChars src s (t.toList.length + 2) = '"' :: (t.toList ++ ['"']) := by
  simp [litsOK, Bool.and_eq_true] at h
  exact ⟨h.1.1, h.1.2⟩

/-- **C4.**  `detectRouteString` returns non-null only if the string
literal found at the offset is bound to a property named exactly
`route`: its parent on the ancestor chain is either a property
assignment whose name is the identifier `route` and of which the
literal is one of the non-name children (the value), or a shorthand
property assignment named `route`.  A literal bound to any other
property name therefore yields `null`. -/
theorem C4_route_binding_required (tree : TsNode) (position : Nat) (info : RouteStringInfo)
    (hdet : detectRouteString tree position = some info) :
    ∃ tok parent rest,
      findToken position tree [] = some (tok, parent :: rest) ∧
      tok.kind = NodeKind.stringLiteral info.route ∧
      ((parent.kind = NodeKind.propertyAssignment ∧
        ∃ nameNode others, parent.children = nameNode :: others ∧
          nameNode.kind = NodeKind.identifier "route" ∧ tok ∈ others) ∨
       parent.kind = NodeKind.shorthandPropertyAssignment "route") := by
  unfold detectRouteString at hdet
  cases hft : findToken position tree [] with
  | none => rw [hft] at hdet; cases hdet
  | some pr =>
    obtain ⟨tok, anc⟩ := pr
    rw [hft] at hdet
    dsimp only at hdet
    cases hk : tok.kind with
    | stringLiteral text =>
      rw [hk] at hdet
      dsimp only at hdet
      split at hdet
      · split at hdet
        · split at hdet
          · rename_i hroutep hpath hslash
            simp only [Option.some.injEq] at hdet
            have hroute : info.route = text := by rw [← hdet]
            cases anc with
            | nil => simp [isRoutePropertyValue] at hroutep
            | cons parent rest =>
              have hchain : tok ∈ parent.children := by
                have := (findToken_inv "" position tree [] tok (parent :: rest) hft).1
                exact this trivial
              refine ⟨tok, parent, rest, rfl, by rw [hk, hroute], ?_⟩
              rw [isRoutePropertyValue] at hroutep
              cases hpk : parent.kind with
              | propertyAssignment =>
                rw [hpk] at hroutep
                cases hpc : parent.children with
                | nil => rw [hpc] at hroutep; cases hroutep
                | cons nameNode others =>
                  rw [hpc] at hroutep
                  dsimp only at hroutep
                  cases hnk : nameNode.kind with
                  | identifier t =>
                    rw [hnk] at hroutep
                    simp only [decide_eq_true_eq] at hroutep
                    subst hroutep
                    refine Or.inl ⟨rfl, nameNode, others, rfl, hnk, ?_⟩
                    rw [hpc] at hchain
                    cases hchain with
                    | head =>
                      rw [hk] at hnk
                      cases hnk
                    | tail _ hm => exact hm
                  | stringLiteral t => rw [hnk] at hroutep; cases hroutep
                  | propertyAssignment => rw [hnk] at hroutep; cases hroutep
                  | shorthandPropertyAssignment nm => rw [hnk] at hroutep; cases hroutep
                  | callExpression => rw [hnk] at hroutep; cases hroutep
                  | propertyAccessExpression nm => rw [hnk] at hroutep; cases hroutep
                  | objectLiteral => rw [hnk] at hroutep; cases hroutep
                  | other => rw [hnk] at hroutep; cases hroutep
              | shorthandPropertyAssignment nm =>
                rw [hpk] at hroutep
                simp only [decide_eq_true_eq] at hroutep
                subst hroutep
                exact Or.inr rfl
              | stringLiteral t => rw [hpk] at hroutep; cases hroutep
              | identifier t => rw [hpk] at hroutep; cases hroutep
              | callExpression => rw [hpk] at hroutep; cases hroutep
              | propertyAccessExpression nm => rw [hpk] at hroutep; cases hroutep
              | objectLiteral => rw [hpk] at hroutep; cases hroutep
              | other => rw [hpk] at hroutep; cases hroutep
          · cases hdet
        · cases hdet
      · cases hdet
    | identifier t => rw [hk] at hdet; cases hdet
    | propertyAssignment => rw [hk] at hdet; cases hdet
    | shorthandPropertyAssignment nm => rw [hk] at hdet; cases hdet
    | callExpression => rw [hk] at hdet; cases hdet
    | propertyAccessExpression nm => rw [hk] at hdet; cases hdet
    | objectLiteral => rw [hk] at hdet; cases hdet
    | other => rw [hk] at hdet; cases hdet

/-- **C8.**  On a successful detection, the returned span starts at the
literal's opening quote and extends through the closing quote: under
the TypeScript positional contract for string literals (`litsOK`),
slicing the returned span out of the source text reproduces the
literal as written, including both delimiting quote characters. -/
theorem C8_span_includes_quotes (src : String) (tree : TsNode) (position : Nat)
    (info : RouteStringInfo) (hwf : litsOK src tree = true)
    (hdet : detectRouteString tree position = some info) :
    info.span.start = info.start ∧
    info.span.length = info.route.toList.length + 2 ∧
    sliceChars src info.span.start info.span.length = '"' :: (info.route.toList ++ ['"']) := by
  unfold detectRouteString at hdet
  cases hft : findToken position tree [] with
  | none => rw [hft] at hdet; cases hdet
  | some pr =>
    obtain ⟨tok, anc⟩ := pr
    rw [hft] at hdet
    dsimp only at hdet
    cases hk : tok.kind with
    | stringLiteral text =>
      rw [hk] at hdet
      dsimp only at hdet
      split at hdet
      · split at hdet
        · split at hdet
          · have hlits : litsOK src tok = true :=
              (findToken_inv src position tree [] tok anc hft).2 hwf
            simp only [Option.some.injEq] at hdet
            rw [← hdet]
            cases tok with
            | mk k s e cs =>
              simp only [TsNode.kind] at hk
              subst hk
              obtain ⟨he, hslice⟩ := litsOK_literal hlits
              have hlen : e - s = text.toList.length + 2 := by omega
              simp only [TsNode.start, TsNode.stop]
              exact ⟨by trivial, hlen, by rw [hlen]; exact hslice⟩
          · cases hdet
        · cases hdet
      · cases hdet
    | identifier t => rw [hk] at hdet; cases hdet
    | propertyAssignment => rw [hk] at hdet; cases hdet
    | shorthandPropertyAssignment nm => rw [hk] at hdet; cases hdet
    | callExpression => rw [hk] at hdet; cases hdet
    | propertyAccessExpression nm => rw [hk] at hdet; cases hdet
    | objectLiteral => rw [hk] at hdet; cases hdet
    | other => rw [hk] at hdet; cases hdet

/-- Concrete source text `$path({ route: "/users/[id]" })` used to
witness the detector claims. -/
def c48Src : String := "$path(\x7b route: \"/users/[id]\" \x7d)"

def c48Lit : TsNode := .mk (.stringLiteral "/users/[id]") 15 28 []

def c48Name : TsNode := .mk (.identifier "route") 8 13 []

def c48PA : TsNode := .mk .propertyAssignment 8 28 [c48Name, c48Lit]

def c48Obj : TsNode := .mk .objectLiteral 6 30 [c48PA]

def c48Callee : TsNode := .mk (.identifier "$path") 0 5 []

def c48Call : TsNode := .mk .callExpression 0 31 [c48Callee, c48Obj]

def c48Info : RouteStringInfo :=
  { route := "/users/[id]", start := 15, stop := 28, span := { start := 15, length := 13 } }

/-- Witness for C4 at a concrete instance. -/
theorem C4_witness :
    ∃ tok parent rest,
      findToken 16 c48Call [] = some (tok, parent :: rest) ∧
      tok.kind = NodeKind.stringLiteral c48Info.route ∧
      ((parent.kind = NodeKind.propertyAssignment ∧
        ∃ nameNode others, parent.children = nameNode :: others ∧
          nameNode.kind = NodeKind.identifier "route" ∧ tok ∈ others) ∨
       parent.kind = NodeKind.shorthandPropertyAssignment "route") :=
  C4_route_binding_required c48Call 16 c48Info rfl

/-- Witness for C8 at a concrete instance. -/
theorem C8_witness :
    c48Info.span.start = c48Info.start ∧
    c48Info.span.length = c48Info.route.toList.length + 2 ∧
    sliceChars c48Src c48Info.span.start c48Info.span.length =
      '"' :: (c48Info.route.toList ++ ['"']) :=
  C8_span_includes_quotes c48Src c48Call 16 c48Info rfl rfl
